import Mathlib

/-!
# Verification of the compile–diagnose–repair retry controller

A shallow embedding of the retry controller, the two rule-based repair
engines, the diagnostic extraction and the batch loop of the
`mcpserver-simplicity` repository (`agent_autofix.py`, `agent_claude.py`),
together with proofs of the testable properties of its specification.

Text is modelled as `List Char` (Python `str`).  The external compiler and
the external reasoning service are abstracted as function parameters: the
compiler as an oracle `Nat → List Char → List Char` giving the response text
for the submission made at a given attempt index, the JSON decoder
(`json.loads`) as a partial function `List Char → Option Json` whose `none`
models a raised `JSONDecodeError` (caught by the bare `except` in the
source).  Character classes of the regular expressions are modelled over
the code points that the inputs in scope use; the Unicode-only extensions
of Python's `\s`, `\w` beyond this set are not modelled.
-/

/-- Python whitespace (`str.strip`, and the `\s` class of `re` for `str`
patterns): the characters for which `str.isspace()` holds. -/
def pyIsSpace (c : Char) : Bool :=
  let n := c.toNat
  (9 ≤ n && n ≤ 13) || n == 32 || (28 ≤ n && n ≤ 31) || n == 0x85 || n == 0xa0 ||
    n == 0x1680 || (0x2000 ≤ n && n ≤ 0x200a) || n == 0x2028 || n == 0x2029 ||
    n == 0x202f || n == 0x205f || n == 0x3000

/-- The `\w` class of `re` (word characters); ASCII letters, digits and
underscore. -/
def pyIsWord (c : Char) : Bool :=
  c.isAlphanum || c == '_'

/-- Does `s` start with `p`?  (Python `str.startswith`.) -/
def listStarts : List Char → List Char → Bool
  | [], _ => true
  | _ :: _, [] => false
  | a :: p, b :: s => a == b && listStarts p s

/-- Python's substring containment `p in s`. -/
def pyInL (p : List Char) : List Char → Bool
  | [] => listStarts p []
  | c :: s => listStarts p (c :: s) || pyInL p s

/-- Strip a literal prefix, returning the rest (used by the regex engine). -/
def stripLit : List Char → List Char → Option (List Char)
  | [], s => some s
  | _ :: _, [] => none
  | a :: p, b :: s => if a == b then stripLit p s else none

/-- Python `str.strip()`: drop leading and trailing whitespace. -/
def pyStripL (s : List Char) : List Char :=
  ((List.dropWhile pyIsSpace s).reverse.dropWhile pyIsSpace).reverse

/-- `text.encode('ascii', 'ignore').decode('ascii')`: delete the
non-ASCII characters. -/
def asciiClean (s : List Char) : List Char :=
  s.filter (fun c => c.toNat < 128)

/-- Python `str.split('\n')`, worker: `cur` is the piece being built. -/
def splitNlGo (cur : List Char) : List Char → List (List Char)
  | [] => [cur]
  | c :: s => if c = '\n' then cur :: splitNlGo [] s else splitNlGo (cur ++ [c]) s

/-- Python `str.split('\n')`. -/
def splitNl (s : List Char) : List (List Char) := splitNlGo [] s

/-- Python `'\n'.join(lines)`. -/
def joinNl : List (List Char) → List Char
  | [] => []
  | [l] => l
  | l :: ls => l ++ '\n' :: joinNl ls

/-- Python `str.find(c)`: index of the first occurrence, `-1` if absent. -/
def pyFindChar : List Char → Char → Int
  | [], _ => -1
  | b :: s, c => if b = c then 0 else
      match pyFindChar s c with
      | -1 => -1
      | i => i + 1

/-- Python slicing `s[i:]`, including the negative-index convention
(`s[-k:]` keeps the last `k` characters, clamped at the start). -/
def pySliceFrom (s : List Char) (i : Int) : List Char :=
  if 0 ≤ i then s.drop i.toNat else s.drop (s.length - (-i).toNat)

example : pyInL "lo w".toList "hello world".toList = true := by decide
example : pyInL "low".toList "hello world".toList = false := by decide
example : pyStripL "  a b\n".toList = "a b".toList := by decide
example : splitNl "a\n\nbc".toList = ["a".toList, [], "bc".toList] := by decide
example : joinNl ["a".toList, [], "bc".toList] = "a\n\nbc".toList := by decide
example : pyFindChar "abcb".toList 'b' = 1 := by decide
example : pyFindChar "abc".toList 'z' = -1 := by decide
example : pySliceFrom "abcd".toList (-1) = "d".toList := by decide
example : pySliceFrom "abcd".toList 2 = "cd".toList := by decide

/-!
## A small regex engine

Exactly the fragment used by the five `re.sub` patterns of the repository:
literals, the character classes `\s`, `\w`, `.` (with `re.DOTALL`) and
`[^)]`, the greedy quantifiers `*` and `+` applied to single-character
classes, and capturing groups (at most two per pattern), with Python's
leftmost-match, greedy-with-backtracking semantics, and `re.sub`'s
scan-and-replace-all loop.  Groups are entered and left with explicit
`gOpen`/`gClose` markers so that the matcher is structurally recursive on
the pattern.
-/

/-- Character classes occurring in the five patterns. -/
inductive CC where
  | ws    -- the class of `\s`
  | word  -- the class of `\w`
  | any   -- `.` under `re.DOTALL`
  | noRp  -- the class `[^)]`
deriving Repr, DecidableEq

def CC.eval : CC → Char → Bool
  | .ws => pyIsSpace
  | .word => pyIsWord
  | .any => fun _ => true
  | .noRp => fun c => !(c == ')')

/-- One element of a (flattened) regular expression. -/
inductive RE where
  | lit (l : List Char)   -- a literal string
  | starC (c : CC)        -- greedy `c*`
  | plusC (c : CC)        -- greedy `c+`
  | gOpen                 -- opening of a capturing group
  | gClose (i : Nat)      -- closing of capturing group number `i` (1 or 2)
deriving Repr

/-- The two capture registers a pattern can fill. -/
structure Groups where
  g1 : List Char := []
  g2 : List Char := []
deriving Repr, DecidableEq

def Groups.set (g : Groups) (i : Nat) (v : List Char) : Groups :=
  if i = 1 then { g with g1 := v } else { g with g2 := v }

/-- Length of the maximal prefix of `s` inside class `p`. -/
def munch (p : Char → Bool) : List Char → Nat
  | [] => 0
  | c :: s => if p c then munch p s + 1 else 0

/-- Greedy backtracking over a quantifier: try `cont n` for
`n = hi, hi-1, ..., lo` and keep the first success. -/
def tryDown (cont : Nat → Option (Groups × List Char)) (lo : Nat) :
    Nat → Option (Groups × List Char)
  | 0 => if lo = 0 then cont 0 else none
  | n + 1 =>
    if lo > n + 1 then none
    else
      match cont (n + 1) with
      | some r => some r
      | none => tryDown cont lo n

/-- Match a pattern against a prefix of `s` (anchored), with a stack `st` of
group-opening snapshots and the capture registers `g`; returns the registers
and the unconsumed remainder of the first (greedy) match. -/
def matchSeq : List RE → List (List Char) → Groups → List Char →
    Option (Groups × List Char)
  | [], _, g, s => some (g, s)
  | .lit l :: ps, st, g, s =>
    match stripLit l s with
    | some s1 => matchSeq ps st g s1
    | none => none
  | .starC c :: ps, st, g, s =>
    tryDown (fun n => matchSeq ps st g (s.drop n)) 0 (munch c.eval s)
  | .plusC c :: ps, st, g, s =>
    tryDown (fun n => matchSeq ps st g (s.drop n)) 1 (munch c.eval s)
  | .gOpen :: ps, st, g, s => matchSeq ps (s :: st) g s
  | .gClose i :: ps, st, g, s =>
    match st with
    | s0 :: st1 => matchSeq ps st1 (g.set i (s0.take (s0.length - s.length))) s
    | [] => none

/-- Try an anchored match at the head of `s`. -/
def tryMatch (pat : List RE) (s : List Char) : Option (Groups × List Char) :=
  matchSeq pat [] {} s

/-- `re.sub` worker: scan left to right, replace every match and continue
after it, copy unmatched characters.  The fuel is an upper bound on the
number of scan steps (each step consumes at least one character of `s`;
none of the five patterns can match the empty string). -/
def subAllGo (pat : List RE) (repl : Groups → List Char) :
    Nat → List Char → List Char
  | 0, s => s
  | _ + 1, [] => []
  | f + 1, c :: s =>
    match tryMatch pat (c :: s) with
    | some (g, rest) => repl g ++ subAllGo pat repl f rest
    | none => c :: subAllGo pat repl f s

/-- `re.sub(pat, repl, s)` for the patterns of this repository. -/
def reSub (pat : List RE) (repl : Groups → List Char) (s : List Char) :
    List Char :=
  subAllGo pat repl s.length s

/-!
## The five substitution patterns

Transliterated from the `re.sub` calls of `agent_autofix.py` (patterns
`fn\s+main\s*\(\s*\)\s*\{(.*)\}` with DOTALL, and `let\s+\((\w+),\)\s*=`)
and `agent_claude.py` (patterns `fn\s+main\(\)\s*\{(.*)\}` with DOTALL,
`let\s+(\w+)\s*=\s*(jet::\w+\([^)]+\));`, and `assert!\(([^)]+)\);`).
-/

def mainWrapRe : List RE :=
  [.lit "fn".toList, .plusC .ws, .lit "main".toList, .starC .ws, .lit "(".toList,
   .starC .ws, .lit ")".toList, .starC .ws, .lit "\x7b".toList,
   .gOpen, .starC .any, .gClose 1, .lit "\x7d".toList]

def mainWrapNoWsRe : List RE :=
  [.lit "fn".toList, .plusC .ws, .lit "main()".toList, .starC .ws, .lit "\x7b".toList,
   .gOpen, .starC .any, .gClose 1, .lit "\x7d".toList]

def tupleLetRe : List RE :=
  [.lit "let".toList, .plusC .ws, .lit "(".toList, .gOpen, .plusC .word, .gClose 1,
   .lit ",)".toList, .starC .ws, .lit "=".toList]

def letJetRe : List RE :=
  [.lit "let".toList, .plusC .ws, .gOpen, .plusC .word, .gClose 1, .starC .ws,
   .lit "=".toList, .starC .ws, .gOpen, .lit "jet::".toList, .plusC .word,
   .lit "(".toList, .plusC .noRp, .lit ")".toList, .gClose 2, .lit ";".toList]

def assertVerifyRe : List RE :=
  [.lit "assert!(".toList, .gOpen, .plusC .noRp, .gClose 1, .lit ");".toList]

/-- Replacement template `\1`. -/
def groupRepl (g : Groups) : List Char := g.g1

/-- Replacement template `let \1 =`. -/
def tupleLetRepl (g : Groups) : List Char :=
  "let ".toList ++ g.g1 ++ " =".toList

/-- Replacement template `let (\1,) = \2;`. -/
def letJetRepl (g : Groups) : List Char :=
  "let (".toList ++ g.g1 ++ ",) = ".toList ++ g.g2 ++ ";".toList

/-- Replacement template `jet::verify(\1);`. -/
def assertVerifyRepl (g : Groups) : List Char :=
  "jet::verify(".toList ++ g.g1 ++ ");".toList

example : reSub mainWrapRe groupRepl "fn main() \x7b\nx\n\x7d".toList = "\nx\n".toList := by
  decide
example : reSub mainWrapRe groupRepl "fn main() -> () \x7b\nx\n\x7d".toList =
    "fn main() -> () \x7b\nx\n\x7d".toList := by decide
example : reSub mainWrapNoWsRe groupRepl "a fn  main() \x7bbody\x7d b".toList =
    "a body b".toList := by decide
example : reSub tupleLetRe tupleLetRepl "let (x,) = 5;".toList = "let x = 5;".toList := by
  decide
example : reSub letJetRe letJetRepl "let x = jet::add_32(a, b);".toList =
    "let (x,) = jet::add_32(a, b);".toList := by decide
example : reSub assertVerifyRe assertVerifyRepl "assert!(a == b);".toList =
    "jet::verify(a == b);".toList := by decide

/-!
## The Pattern Fix Engine (`agent_autofix.apply_rule_based_fixes`)
-/

namespace Autofix

/-- The body of `apply_rule_based_fixes` up to the final
`return fixed_code.strip() + '\n'`: the ordered, independently gated rules.
Rule 1 wraps in `fn main() -> () { ... () }` when the error mentions
`expected program`; the comment-removal rule drops `//`-lines when the
error mentions `expected EOI or item`; rule 2 unwraps a `fn main()` wrapper
and dedents four-space-indented lines; rule 3 rewrites single-element
tuple-destructuring `let` bindings. -/
def fixesCore (source_code error_message : List Char) : List Char :=
  let fixed0 := source_code
  let fixed1 :=
    if pyInL "expected program".toList error_message then
      "fn main() -> () \x7b\n".toList ++ fixed0 ++ "\n    ()\n\x7d".toList
    else fixed0
  let fixed2 :=
    if pyInL "expected EOI or item".toList error_message then
      joinNl ((splitNl fixed1).filter
        (fun line => !(listStarts "//".toList (pyStripL line))))
    else fixed1
  let fixed3 :=
    if pyInL "fn main()".toList fixed2 || pyInL "fn main (".toList fixed2 then
      joinNl ((splitNl (reSub mainWrapRe groupRepl fixed2)).map
        (fun line => if listStarts "    ".toList line then line.drop 4 else line))
    else fixed2
  let fixed4 :=
    if pyInL "let (".toList fixed3 && pyInL ",)".toList fixed3 then
      reSub tupleLetRe tupleLetRepl fixed3
    else fixed3
  fixed4

/-- `agent_autofix.apply_rule_based_fixes`. -/
def apply_rule_based_fixes (source_code error_message : List Char) : List Char :=
  pyStripL (fixesCore source_code error_message) ++ ['\n']

end Autofix

/-!
## The rule-based fixer of the Delegated Fix Engine
(`SimplicityFixAgent.apply_rule_based_fixes` in `agent_claude.py`)
-/

namespace ClaudeAgent

/-- `SimplicityFixAgent.apply_rule_based_fixes`: unwrap a `fn main()`
wrapper (no dedent, no trailing normalization), rewrite plain `let` of a
jet call into a single-element tuple binding, rewrite `assert!` into
`jet::verify`.  The `error_message` argument is unused by the source. -/
def apply_rule_based_fixes (source_code error_message : List Char) : List Char :=
  let fixed1 :=
    if pyInL "fn main()".toList source_code then
      reSub mainWrapNoWsRe groupRepl source_code
    else source_code
  let fixed2 := reSub letJetRe letJetRepl fixed1
  reSub assertVerifyRe assertVerifyRepl fixed2

end ClaudeAgent

example : Autofix.apply_rule_based_fixes "1 + 1".toList "expected program".toList =
    "fn main() -> () \x7b\n1 + 1\n()\n\x7d\n".toList := by decide
example : Autofix.apply_rule_based_fixes "// c\nx".toList "expected EOI or item".toList =
    "x\n".toList := by decide
example : ClaudeAgent.apply_rule_based_fixes "1 + 1".toList "expected program".toList =
    "1 + 1".toList := by decide
example : ClaudeAgent.apply_rule_based_fixes [] [] = [] := by decide

/-!
## Diagnostic extraction

`json.loads` is abstracted as a parameter `jload : List Char → Option Json`;
`none` models a raised decode error, absorbed by the `except: pass` of the
source.  A structured payload whose `"message"` value is not a string would
escape the extractor as a non-`str` value (and crash only later, outside
it); this off-contract corner is modelled as keeping the raw text.
-/

/-- A decoded JSON value (the result of `json.loads`). -/
inductive Json where
  | null
  | bool (b : Bool)
  | num (q : ℚ)
  | str (s : List Char)
  | arr (xs : List Json)
  | obj (kvs : List (List Char × Json))
deriving Repr

/-- Python `key in dict` / `dict[key]` on a decoded object. -/
def jobjFind (kvs : List (List Char × Json)) (k : List Char) : Option Json :=
  (kvs.find? (fun p => p.1 == k)).map (fun p => p.2)

namespace Autofix

/-- Error extraction of `compile_and_fix` (lines 132–140): start from the
whole response text; if it mentions `message`, try to decode the JSON
object starting at the first `{` and prefer
`json_data["result_json"]["message"]`; any failure on that path falls back
to the raw text. -/
def extract_error (jload : List Char → Option Json) (content_safe : List Char) :
    List Char :=
  if pyInL "message".toList content_safe then
    match jload (pySliceFrom content_safe (pyFindChar content_safe '\x7b')) with
    | some (.obj kvs) =>
      match jobjFind kvs "result_json".toList with
      | some (.obj kvs2) =>
        match jobjFind kvs2 "message".toList with
        | some (.str m) => m
        | some _ => content_safe
        | none => content_safe
      | some _ => content_safe
      | none => content_safe
    | some _ => content_safe
    | none => content_safe
  else content_safe

/-- The success marker searched for in the (ASCII-cleaned) response. -/
def marker : List Char := "Compilation successful!".toList

/-- The Diagnostic Extractor of `agent_autofix.py` as a single contract
`text ↦ (succeeded, canonicalError)`: the success flag is the literal
marker search of line 127, the canonical error is `extract_error`. -/
def diagnose (jload : List Char → Option Json) (content_safe : List Char) :
    Bool × List Char :=
  (pyInL marker content_safe, extract_error jload content_safe)

end Autofix

namespace ClaudeAgent

/-- Error extraction of `compile_with_retries` (lines 200–208); same
recovery structure as the `agent_autofix` extractor but gated on the text
mentioning `message":` and applied to the raw (uncleaned) response. -/
def extract_error (jload : List Char → Option Json) (content : List Char) :
    List Char :=
  if pyInL "message\":".toList content then
    match jload (pySliceFrom content (pyFindChar content '\x7b')) with
    | some (.obj kvs) =>
      match jobjFind kvs "result_json".toList with
      | some (.obj kvs2) =>
        match jobjFind kvs2 "message".toList with
        | some (.str m) => m
        | some _ => content
        | none => content
      | some _ => content
      | none => content
    | some _ => content
    | none => content
  else content

/-- The success marker of `agent_claude.py` (line 190). -/
def marker : List Char := "✅ Compilation successful!".toList

/-- The Diagnostic Extractor of `agent_claude.py` as a single contract
`text ↦ (succeeded, canonicalError)`. -/
def diagnose (jload : List Char → Option Json) (content : List Char) :
    Bool × List Char :=
  (pyInL marker content, extract_error jload content)

end ClaudeAgent

example :
    Autofix.extract_error (fun _ => none) "failed: message \x7boops".toList =
      "failed: message \x7boops".toList := by decide
example :
    Autofix.extract_error
      (fun _ => some (.obj [("result_json".toList,
        .obj [("message".toList, .str "boom".toList)])]))
      "\x7bmessage stuff\x7d".toList = "boom".toList := by decide
example :
    Autofix.extract_error (fun _ => some (.arr [])) "message x".toList =
      "message x".toList := by decide

/-!
## The Retry Controllers

`compile_and_fix` (`agent_autofix.py`) and `compile_with_retries`
(`agent_claude.py`).  The compiler collaborator is an oracle
`compile : Nat → List Char → List Char` mapping the attempt index and the
submitted source to the response text of `session.call_tool`; the repair
strategy is a parameter (`agent_autofix` instantiates it with
`apply_rule_based_fixes` — `fix_code_with_llm` reduces to the same
function in every configured branch — and `agent_claude` with
`analyze_and_fix(...)["fixed_code"]`).
-/

namespace Autofix

/-- One entry of `attempts_history` (the dict appended at lines 119–124). -/
structure ARec where
  attempt : Nat
  code : List Char
  success : Bool
  result : List Char
deriving Repr, DecidableEq

/-- The `for attempt in range(1, max_attempts + 1)` loop of
`compile_and_fix`; `r` is the number of permitted attempts still available
including the current one (`r = 0` is the loop falling off the end),
`a` the 1-based index of the current attempt. -/
def compileGo (compile : Nat → List Char → List Char)
    (jload : List Char → Option Json)
    (repair : List Char → List Char → List Char) :
    Nat → Nat → List Char → List ARec → Bool × List Char × List ARec
  | 0, _, current_code, hist => (false, current_code, hist)
  | r + 1, a, current_code, hist =>
    let content_safe := asciiClean (compile a current_code)
    let ok := pyInL marker content_safe
    let hist1 := hist ++ [⟨a, current_code, ok, content_safe.take 500⟩]
    if ok then (true, current_code, hist1)
    else
      let error_msg := extract_error jload content_safe
      if r = 0 then (false, current_code, hist1)
      else compileGo compile jload repair r (a + 1) (repair current_code error_msg) hist1

/-- `compile_and_fix(session, source_code, witness_data, max_attempts)`:
returns `(success, final_code, attempts_history)`. -/
def compile_and_fix (compile : Nat → List Char → List Char)
    (jload : List Char → Option Json)
    (repair : List Char → List Char → List Char)
    (max_attempts : Nat) (source_code : List Char) :
    Bool × List Char × List ARec :=
  compileGo compile jload repair max_attempts 1 source_code []

/-- The source submitted at attempt `k` (when the run reaches attempt `k`,
i.e. when all earlier submissions failed): the initial source at attempt 1,
then the repair of the previous submission applied to the previous
canonical error. -/
def srcAt (compile : Nat → List Char → List Char)
    (jload : List Char → Option Json)
    (repair : List Char → List Char → List Char)
    (source_code : List Char) : Nat → List Char
  | 0 => source_code
  | 1 => source_code
  | k + 2 =>
    let s := srcAt compile jload repair source_code (k + 1)
    repair s (extract_error jload (asciiClean (compile (k + 1) s)))

/-- Did the submission made at attempt `k` succeed? -/
def succAt (compile : Nat → List Char → List Char)
    (jload : List Char → Option Json)
    (repair : List Char → List Char → List Char)
    (source_code : List Char) (k : Nat) : Bool :=
  pyInL marker (asciiClean (compile k (srcAt compile jload repair source_code k)))

/-- The history record produced by attempt `k`. -/
def recAt (compile : Nat → List Char → List Char)
    (jload : List Char → Option Json)
    (repair : List Char → List Char → List Char)
    (source_code : List Char) (k : Nat) : ARec :=
  ⟨k, srcAt compile jload repair source_code k,
    succAt compile jload repair source_code k,
    (asciiClean (compile k (srcAt compile jload repair source_code k))).take 500⟩

end Autofix

/-- The consecutive attempt indices `[a, a+1, ..., a+n-1]`. -/
def idxFrom : Nat → Nat → List Nat
  | _, 0 => []
  | a, n + 1 => a :: idxFrom (a + 1) n

namespace ClaudeAgent

/-- One entry of `history` in `compile_with_retries`: the success record of
lines 192–196 carries no error, the failure record of lines 213–218 carries
the truncated canonical error. -/
structure CRec where
  attempt : Nat
  success : Bool
  code : List Char
  error : Option (List Char)
deriving Repr, DecidableEq

/-- The `for attempt in range(1, max_attempts + 1)` loop of
`compile_with_retries`; the repair strategy takes the attempt index
(`analyze_and_fix(current_code, error_msg, attempt)`). -/
def compileGo (compile : Nat → List Char → List Char)
    (jload : List Char → Option Json)
    (repair : Nat → List Char → List Char → List Char) :
    Nat → Nat → List Char → List CRec → Bool × List Char × List CRec
  | 0, _, current_code, hist => (false, current_code, hist)
  | r + 1, a, current_code, hist =>
    let content := compile a current_code
    if pyInL marker content then
      (true, current_code, hist ++ [⟨a, true, current_code, none⟩])
    else
      let error_msg := extract_error jload content
      let hist1 := hist ++ [⟨a, false, current_code, some (error_msg.take 200)⟩]
      if r = 0 then (false, current_code, hist1)
      else compileGo compile jload repair r (a + 1) (repair a current_code error_msg) hist1

/-- `compile_with_retries(session, agent, source_code, witness_data,
max_attempts)`: returns `(success, final_code, history)`. -/
def compile_with_retries (compile : Nat → List Char → List Char)
    (jload : List Char → Option Json)
    (repair : Nat → List Char → List Char → List Char)
    (max_attempts : Nat) (source_code : List Char) :
    Bool × List Char × List CRec :=
  compileGo compile jload repair max_attempts 1 source_code []

/-- The source submitted at attempt `k` of `compile_with_retries` (when all
earlier submissions failed). -/
def srcAt (compile : Nat → List Char → List Char)
    (jload : List Char → Option Json)
    (repair : Nat → List Char → List Char → List Char)
    (source_code : List Char) : Nat → List Char
  | 0 => source_code
  | 1 => source_code
  | k + 2 =>
    let s := srcAt compile jload repair source_code (k + 1)
    repair (k + 1) s (extract_error jload (compile (k + 1) s))

/-- Did the submission made at attempt `k` succeed? -/
def succAt (compile : Nat → List Char → List Char)
    (jload : List Char → Option Json)
    (repair : Nat → List Char → List Char → List Char)
    (source_code : List Char) (k : Nat) : Bool :=
  pyInL marker (compile k (srcAt compile jload repair source_code k))

/-- The history record produced by attempt `k`. -/
def recAt (compile : Nat → List Char → List Char)
    (jload : List Char → Option Json)
    (repair : Nat → List Char → List Char → List Char)
    (source_code : List Char) (k : Nat) : CRec :=
  if succAt compile jload repair source_code k then
    ⟨k, true, srcAt compile jload repair source_code k, none⟩
  else
    ⟨k, false, srcAt compile jload repair source_code k,
      some ((extract_error jload
        (compile k (srcAt compile jload repair source_code k))).take 200)⟩

end ClaudeAgent

/-!
## The Delegated Fix Engine (`SimplicityFixAgent.analyze_and_fix`)

The interaction with the reasoning service is abstracted as an outcome:
either no client is configured (`self.client is None`), or some exception
was raised inside the `try` block (network call, fenced-block extraction,
`json.loads` — the bare `except Exception`), or a JSON value was decoded
from the response.  In every branch the source returns a plain dict.
-/

namespace ClaudeAgent

/-- How the call to the reasoning service went. -/
inductive DelegatedOutcome where
  | noClient
  | raised (emsg : List Char)
  | decoded (j : Json)
deriving Repr

/-- `SimplicityFixAgent.analyze_and_fix(source_code, error_message,
attempt)`: the returned dict, per branch of the source.  On `noClient` the
rule-based fix with confidence `0.5`; on a raised exception the rule-based
fix with confidence `0.3`; otherwise the decoded response as is. -/
def analyze_and_fix (outcome : DelegatedOutcome)
    (source_code error_message : List Char) : Json :=
  match outcome with
  | .noClient =>
    .obj [("fixed_code".toList, .str (apply_rule_based_fixes source_code error_message)),
          ("explanation".toList, .str "Rule-based fix applied (no LLM available)".toList),
          ("confidence".toList, .num (1 / 2))]
  | .raised emsg =>
    .obj [("fixed_code".toList, .str (apply_rule_based_fixes source_code error_message)),
          ("explanation".toList,
            .str ("API error, used rule-based fix: ".toList ++ emsg)),
          ("confidence".toList, .num (3 / 10))]
  | .decoded j => j

/-- The `fixed_code` field of a returned dict, when it is a string. -/
def fixedCodeOf (j : Json) : Option (List Char) :=
  match j with
  | .obj kvs =>
    match jobjFind kvs "fixed_code".toList with
    | some (.str m) => some m
    | _ => none
  | _ => none

/-- The `confidence` field of a returned dict, when it is a number. -/
def confidenceOf (j : Json) : Option ℚ :=
  match j with
  | .obj kvs =>
    match jobjFind kvs "confidence".toList with
    | some (.num q) => some q
    | _ => none
  | _ => none

end ClaudeAgent

/-!
## The Batch Runner

The `for name, ... in test_files:` loop of `main` in both agent files.
Per-case processing (file reads, the retry run, saving the fixed source) is
abstracted as `proc : String → Except E Bool` returning the case's success
flag or the exception it raises; the loop body contains no `try`, so an
exception short-circuits the whole loop (modelled by the `Except` error
path).
-/

/-- The batch loop: process the named cases in order, collecting
`(name, succeeded)`; the first uncaught exception aborts the run. -/
def run_batch {E : Type} (proc : String → Except E Bool) :
    List String → Except E (List (String × Bool))
  | [] => .ok []
  | n :: rest =>
    match proc n with
    | .error e => .error e
    | .ok b =>
      match run_batch proc rest with
      | .error e => .error e
      | .ok rs => .ok ((n, b) :: rs)

example :
    run_batch (fun n => if n = "A" then .error 7 else .ok true) ["B", "A", "C"] =
      .error 7 := rfl
example :
    run_batch (fun n => if n = "A" then .error 7 else .ok true) ["B", "C"] =
      .ok [("B", true), ("C", true)] := rfl

/-- The header of the wrapper added by rule 1 of the Pattern Fix Engine:
`fn main() -> () {`. -/
def hdrL : List Char := "fn main() -> () \x7b".toList

/-!
## Helper lemmas about the text primitives
-/

theorem listStarts_iff (p s : List Char) :
    listStarts p s = true ↔ ∃ t, s = p ++ t := by
  induction p generalizing s with
  | nil => simp [listStarts]
  | cons a p ih =>
    cases s with
    | nil =>
      simp [listStarts]
    | cons b s =>
      rw [show listStarts (a :: p) (b :: s) = (a == b && listStarts p s) from rfl,
        Bool.and_eq_true, beq_iff_eq, ih]
      constructor
      · rintro ⟨rfl, t, rfl⟩
        exact ⟨t, rfl⟩
      · rintro ⟨t, h⟩
        injection h with h1 h2
        exact ⟨h1.symm, t, h2⟩

theorem listStarts_append_self (p t : List Char) :
    listStarts p (p ++ t) = true :=
  (listStarts_iff p (p ++ t)).mpr ⟨t, rfl⟩

theorem pyInL_of_starts {p s : List Char} (h : listStarts p s = true) :
    pyInL p s = true := by
  cases s with
  | nil => simpa [pyInL] using h
  | cons c s => simp [pyInL, h]

theorem pyInL_iff (p s : List Char) :
    pyInL p s = true ↔ ∃ u v, s = u ++ (p ++ v) := by
  induction s with
  | nil =>
    rw [show pyInL p [] = listStarts p [] from rfl, listStarts_iff]
    constructor
    · rintro ⟨t, h⟩
      exact ⟨[], t, h⟩
    · rintro ⟨u, v, h⟩
      rcases List.append_eq_nil.mp h.symm with ⟨rfl, h2⟩
      exact ⟨v, by simpa using h⟩
  | cons c s ih =>
    rw [show pyInL p (c :: s) = (listStarts p (c :: s) || pyInL p s) from rfl,
      Bool.or_eq_true, ih, listStarts_iff]
    constructor
    · rintro (⟨t, h⟩ | ⟨u, v, rfl⟩)
      · exact ⟨[], t, by simpa using h⟩
      · exact ⟨c :: u, v, rfl⟩
    · rintro ⟨u, v, h⟩
      cases u with
      | nil => exact Or.inl ⟨v, by simpa using h⟩
      | cons b u =>
        injection h with h1 h2
        exact Or.inr ⟨u, v, h2⟩

theorem pyInL_append_left (p u v : List Char) :
    pyInL p (u ++ (p ++ v)) = true :=
  (pyInL_iff p _).mpr ⟨u, v, rfl⟩

theorem pyInL_asciiClean {p s : List Char} (hp : ∀ c ∈ p, c.toNat < 128)
    (h : pyInL p s = true) : pyInL p (asciiClean s) = true := by
  rcases (pyInL_iff p s).mp h with ⟨u, v, rfl⟩
  have hfp : p.filter (fun c => c.toNat < 128) = p :=
    List.filter_eq_self.mpr (fun a ha => decide_eq_true (hp a ha))
  have : asciiClean (u ++ (p ++ v)) =
      asciiClean u ++ (p ++ asciiClean v) := by
    simp [asciiClean, List.filter_append, hfp]
  rw [this]
  exact pyInL_append_left ..

/-!
## Helper lemmas about the line primitives and the substitution scan
-/

theorem splitNlGo_shape (s : List Char) :
    ∀ cur, ∃ A B, splitNlGo cur s = (cur ++ A) :: B := by
  induction s with
  | nil => exact fun cur => ⟨[], [], by simp [splitNlGo]⟩
  | cons c s ih =>
    intro cur
    by_cases hc : c = '\n'
    · subst hc
      exact ⟨[], splitNlGo [] s, by simp [splitNlGo]⟩
    · rcases ih (cur ++ [c]) with ⟨A, B, h⟩
      exact ⟨c :: A, B, by simp [splitNlGo, hc, h]⟩

theorem splitNlGo_pre (P : List Char) (hP : ∀ c ∈ P, c ≠ '\n') :
    ∀ cur T, splitNlGo cur (P ++ T) = splitNlGo (cur ++ P) T := by
  induction P with
  | nil => simp
  | cons c P ih =>
    intro cur T
    have hc : c ≠ '\n' := hP c (List.mem_cons_self ..)
    have := ih (fun d hd => hP d (List.mem_cons_of_mem c hd)) (cur ++ [c]) T
    simp only [List.cons_append, splitNlGo, if_neg hc, List.append_eq, this,
      List.append_assoc, List.singleton_append, List.nil_append]

/-- Splitting a text that begins with a newline-free piece `P` followed by a
newline yields `P` as the first line. -/
theorem splitNl_append (P R : List Char) (hP : ∀ c ∈ P, c ≠ '\n') :
    splitNl (P ++ '\n' :: R) = P :: splitNl R := by
  rw [splitNl, splitNlGo_pre P hP [] ('\n' :: R)]
  simp [splitNlGo, splitNl]

/-- If a text starts with a newline-free `P` then the first piece of its
`'\n'`-split extends `P`. -/
theorem splitNl_starts (P T : List Char) (hP : ∀ c ∈ P, c ≠ '\n') :
    ∃ A B, splitNl (P ++ T) = (P ++ A) :: B := by
  rw [splitNl, splitNlGo_pre P hP [] T]
  simpa using splitNlGo_shape T P

/-- The first line of a `joinNl` keeps its prefix. -/
theorem joinNl_starts (l : List Char) (ls : List (List Char)) :
    ∃ T, joinNl (l :: ls) = l ++ T := by
  cases ls with
  | nil => exact ⟨[], by simp [joinNl]⟩
  | cons m ms => exact ⟨'\n' :: joinNl (m :: ms), rfl⟩

/-- A `re.sub` scan never touches a prefix at no offset of which the
pattern matches. -/
theorem subAllGo_prefix (pat : List RE) (repl : Groups → List Char)
    (P : List Char)
    (hP : ∀ i, i < P.length → ∀ T, tryMatch pat (P.drop i ++ T) = none) :
    ∀ (f : Nat) (T : List Char),
      subAllGo pat repl f (P ++ T) = P ++ subAllGo pat repl (f - P.length) T := by
  induction P with
  | nil => simp
  | cons c P ih =>
    intro f T
    cases f with
    | zero => simp [subAllGo]
    | succ f =>
      have h0 : tryMatch pat (c :: (P ++ T)) = none := hP 0 (by simp) T
      have ihP : ∀ i, i < P.length → ∀ T, tryMatch pat (P.drop i ++ T) = none :=
        fun i hi T => hP (i + 1) (by simpa using Nat.succ_lt_succ hi) T
      calc subAllGo pat repl (f + 1) ((c :: P) ++ T)
          = c :: subAllGo pat repl f (P ++ T) := by
            simp only [List.cons_append, subAllGo, List.append_eq, h0]
        _ = c :: (P ++ subAllGo pat repl (f - P.length) T) := by rw [ih ihP]
        _ = (c :: P) ++ subAllGo pat repl (f + 1 - (c :: P).length) T := by
            simp [Nat.succ_sub_succ]

/-!
## The wrapper header survives every stage of the Pattern Fix Engine

The unwrap pattern `fn\s+main\s*\(\s*\)\s*\{` requires only whitespace
between `)` and `{`, which the ` -> () ` of the generated header never
satisfies, and no later offset of the header begins with `fn` (or with
`let`); so no substitution of the pass can reach into the first 17
characters, and splitting, dedenting and stripping keep them too.
-/

theorem mainWrap_nomatch_hdr :
    ∀ i, i < hdrL.length → ∀ T, tryMatch mainWrapRe (hdrL.drop i ++ T) = none := by
  intro i hi T
  have h17 : i < 17 := hi
  interval_cases i <;> rfl

theorem tupleLet_nomatch_hdr :
    ∀ i, i < hdrL.length → ∀ T, tryMatch tupleLetRe (hdrL.drop i ++ T) = none := by
  intro i hi T
  have h17 : i < 17 := hi
  interval_cases i <;> rfl

theorem hdrL_no_newline : ∀ c ∈ hdrL, c ≠ '\n' := by decide

/-- Dedenting (`line[4:] if line.startswith('    ')`) leaves a line that
extends the header unchanged. -/
theorem dedent_hdr_line (A : List Char) :
    (if listStarts "    ".toList (hdrL ++ A) then (hdrL ++ A).drop 4
     else hdrL ++ A) = hdrL ++ A := by
  have : listStarts "    ".toList (hdrL ++ A) = false := rfl
  rw [this]
  simp

/-- `str.strip() + '\n'` keeps a leading header whose first and last
characters are not whitespace. -/
theorem strip_hdr (T : List Char) :
    ∃ T2, pyStripL (hdrL ++ T) ++ ['\n'] = hdrL ++ T2 := by
  have h1 : List.dropWhile pyIsSpace (hdrL ++ T) = hdrL ++ T := by
    rw [show hdrL ++ T = 'f' :: ("n main() -> () \x7b".toList ++ T) from rfl]
    rw [List.dropWhile_cons]
    simp [show pyIsSpace 'f' = false from rfl]
  rw [pyStripL, h1, List.reverse_append, List.dropWhile_append]
  by_cases he : (List.dropWhile pyIsSpace T.reverse).isEmpty = true
  · rw [if_pos he]
    refine ⟨['\n'], ?_⟩
    rw [show List.dropWhile pyIsSpace hdrL.reverse = hdrL.reverse from by decide]
    simp
  · rw [if_neg he]
    refine ⟨(List.dropWhile pyIsSpace T.reverse).reverse ++ ['\n'], ?_⟩
    simp

/-- Through the whole `apply_rule_based_fixes` pass, an input whose error
contains the rule-1 trigger produces an output that still starts with the
full wrapper header. -/
theorem fixesCore_keeps_hdr (source_code error_message : List Char)
    (h : pyInL "expected program".toList error_message = true) :
    ∃ T, Autofix.apply_rule_based_fixes source_code error_message = hdrL ++ T := by
  rw [Autofix.apply_rule_based_fixes, Autofix.fixesCore]
  rw [h]
  simp only [if_true]
  have hshape : "fn main() -> () \x7b\n".toList ++ source_code ++ "\n    ()\n\x7d".toList =
      hdrL ++ '\n' :: (source_code ++ "\n    ()\n\x7d".toList) := by
    simp [hdrL]
  -- stage 3 (unwrap + dedent) keeps an hdrL-headed text hdrL-headed
  have stage3 : ∀ U : List Char, ∃ V, (if pyInL "fn main()".toList (hdrL ++ U) ||
        pyInL "fn main (".toList (hdrL ++ U) then
      joinNl ((splitNl (reSub mainWrapRe groupRepl (hdrL ++ U))).map
        (fun line => if listStarts "    ".toList line then line.drop 4 else line))
    else hdrL ++ U) = hdrL ++ V := by
    intro U
    by_cases hg : (pyInL "fn main()".toList (hdrL ++ U) ||
        pyInL "fn main (".toList (hdrL ++ U)) = true
    · rw [if_pos hg]
      have hsub := subAllGo_prefix mainWrapRe groupRepl hdrL mainWrap_nomatch_hdr
        (hdrL ++ U).length U
      rw [show reSub mainWrapRe groupRepl (hdrL ++ U) =
          subAllGo mainWrapRe groupRepl (hdrL ++ U).length (hdrL ++ U) from rfl, hsub]
      rcases splitNl_starts hdrL (subAllGo mainWrapRe groupRepl
        ((hdrL ++ U).length - hdrL.length) U) hdrL_no_newline with ⟨A, B, hsp⟩
      rw [hsp, List.map_cons]
      have hfour : ¬ (listStarts "    ".toList (hdrL ++ A) = true) := by
        intro hx
        have hf : listStarts "    ".toList (hdrL ++ A) = false := rfl
        rw [hf] at hx
        exact Bool.noConfusion hx
      rw [if_neg hfour]
      rcases joinNl_starts (hdrL ++ A) (B.map
        (fun line => if listStarts "    ".toList line then line.drop 4 else line)) with
        ⟨W, hW⟩
      exact ⟨A ++ W, by rw [hW, List.append_assoc]⟩
    · rw [if_neg hg]
      exact ⟨U, rfl⟩
  -- stage 4 (tuple-pattern rewrite) keeps an hdrL-headed text hdrL-headed
  have stage4 : ∀ U : List Char, ∃ V, (if pyInL "let (".toList (hdrL ++ U) &&
        pyInL ",)".toList (hdrL ++ U) then
      reSub tupleLetRe tupleLetRepl (hdrL ++ U)
    else hdrL ++ U) = hdrL ++ V := by
    intro U
    by_cases hg : (pyInL "let (".toList (hdrL ++ U) && pyInL ",)".toList (hdrL ++ U)) = true
    · rw [if_pos hg]
      have hsub := subAllGo_prefix tupleLetRe tupleLetRepl hdrL tupleLet_nomatch_hdr
        (hdrL ++ U).length U
      exact ⟨subAllGo tupleLetRe tupleLetRepl ((hdrL ++ U).length - hdrL.length) U,
        by rw [show reSub tupleLetRe tupleLetRepl (hdrL ++ U) =
          subAllGo tupleLetRe tupleLetRepl ((hdrL ++ U).length) (hdrL ++ U) from rfl, hsub]⟩
    · rw [if_neg hg]
      exact ⟨U, rfl⟩
  -- stage 2 (comment removal) keeps the header as the first line
  have stage2 : ∃ V, (if pyInL "expected EOI or item".toList error_message then
      joinNl ((splitNl ("fn main() -> () \x7b\n".toList ++ source_code ++
        "\n    ()\n\x7d".toList)).filter
        (fun line => !(listStarts "//".toList (pyStripL line))))
    else "fn main() -> () \x7b\n".toList ++ source_code ++ "\n    ()\n\x7d".toList) =
      hdrL ++ V := by
    by_cases hg : pyInL "expected EOI or item".toList error_message = true
    · rw [if_pos hg, hshape, splitNl_append hdrL _ hdrL_no_newline,
        List.filter_cons_of_pos (by decide)]
      exact joinNl_starts hdrL _
    · rw [if_neg hg, hshape]
      exact ⟨'\n' :: (source_code ++ "\n    ()\n\x7d".toList), rfl⟩
  rcases stage2 with ⟨V2, hV2⟩
  rw [hV2]
  rcases stage3 V2 with ⟨V3, hV3⟩
  rw [hV3]
  rcases stage4 V3 with ⟨V4, hV4⟩
  rw [hV4]
  exact strip_hdr V4

/-!
## Helper lemmas about the retry loops
-/

/-- One unfolded step of the `compile_and_fix` loop. -/
theorem Autofix.compileGo_step (compile : Nat → List Char → List Char)
    (jload : List Char → Option Json) (repair : List Char → List Char → List Char)
    (r a : Nat) (current : List Char) (hist : List ARec) :
    compileGo compile jload repair (r + 1) a current hist =
      if pyInL marker (asciiClean (compile a current)) then
        (true, current,
          hist ++ [⟨a, current, true, (asciiClean (compile a current)).take 500⟩])
      else if r = 0 then
        (false, current,
          hist ++ [⟨a, current, false, (asciiClean (compile a current)).take 500⟩])
      else
        compileGo compile jload repair r (a + 1)
          (repair current (extract_error jload (asciiClean (compile a current))))
          (hist ++ [⟨a, current, false, (asciiClean (compile a current)).take 500⟩]) := by
  rw [compileGo]
  by_cases hok : pyInL marker (asciiClean (compile a current)) = true
  · simp [hok]
  · simp [hok]

/-- If every attempt before `k` fails and attempt `k` succeeds, the loop
run from any attempt `a ≤ k` (with enough budget) stops at `k`, returns the
`k`-th submission, and appends exactly the records of attempts `a..k`. -/
theorem Autofix.compileGo_succeeds (compile : Nat → List Char → List Char)
    (jload : List Char → Option Json) (repair : List Char → List Char → List Char)
    (source_code : List Char) (k : Nat)
    (hsucc : succAt compile jload repair source_code k = true)
    (hfail : ∀ j, 1 ≤ j → j < k → succAt compile jload repair source_code j = false) :
    ∀ (r a : Nat) (hist : List ARec), 1 ≤ a → a ≤ k → k < a + r →
      compileGo compile jload repair r a
        (srcAt compile jload repair source_code a) hist =
      (true, srcAt compile jload repair source_code k,
        hist ++ (idxFrom a (k + 1 - a)).map (recAt compile jload repair source_code)) := by
  intro r
  induction r with
  | zero => intro a hist h1 h2 h3; omega
  | succ r ih =>
    intro a hist h1 h2 h3
    rw [compileGo_step, show pyInL marker (asciiClean (compile a
      (srcAt compile jload repair source_code a))) =
      succAt compile jload repair source_code a from rfl]
    rcases Nat.eq_or_lt_of_le h2 with heq | hlt
    · subst heq
      rw [if_pos hsucc]
      have hk1 : a + 1 - a = 1 := by omega
      rw [hk1]
      simp [idxFrom, recAt, hsucc]
    · have hfa : succAt compile jload repair source_code a = false := hfail a h1 hlt
      rw [hfa, if_neg (by simp)]
      have hr : ¬ (r = 0) := by omega
      rw [if_neg hr]
      obtain ⟨a1, rfl⟩ : ∃ a1, a = a1 + 1 := ⟨a - 1, by omega⟩
      rw [show repair (srcAt compile jload repair source_code (a1 + 1))
          (extract_error jload (asciiClean (compile (a1 + 1)
            (srcAt compile jload repair source_code (a1 + 1))))) =
          srcAt compile jload repair source_code (a1 + 1 + 1) from rfl]
      rw [ih (a1 + 1 + 1) _ (by omega) hlt (by omega)]
      have hsplit : k + 1 - (a1 + 1) = (k + 1 - (a1 + 1 + 1)) + 1 := by omega
      rw [hsplit, show idxFrom (a1 + 1) ((k + 1 - (a1 + 1 + 1)) + 1) =
        (a1 + 1) :: idxFrom (a1 + 1 + 1) (k + 1 - (a1 + 1 + 1)) from rfl]
      simp [recAt, hfa]

/-- If every attempt in `a..last` (where `last = a + r - 1`) fails, the
loop run from attempt `a` with budget `r ≥ 1` exhausts the budget, returns
the last submission unrepaired, and appends the records of attempts
`a..last`. -/
theorem Autofix.compileGo_exhausts (compile : Nat → List Char → List Char)
    (jload : List Char → Option Json) (repair : List Char → List Char → List Char)
    (source_code : List Char) :
    ∀ (r a : Nat) (hist : List ARec), 1 ≤ a → 1 ≤ r →
      (∀ j, a ≤ j → j < a + r → succAt compile jload repair source_code j = false) →
      compileGo compile jload repair r a
        (srcAt compile jload repair source_code a) hist =
      (false, srcAt compile jload repair source_code (a + r - 1),
        hist ++ (idxFrom a r).map (recAt compile jload repair source_code)) := by
  intro r
  induction r with
  | zero => intro a hist h1 h2 h3; omega
  | succ r ih =>
    intro a hist h1 h2 h3
    rw [compileGo_step, show pyInL marker (asciiClean (compile a
      (srcAt compile jload repair source_code a))) =
      succAt compile jload repair source_code a from rfl]
    have hfa : succAt compile jload repair source_code a = false :=
      h3 a (le_refl a) (by omega)
    rw [hfa, if_neg (by simp)]
    by_cases hr : r = 0
    · subst hr
      rw [if_pos rfl]
      simp [idxFrom, recAt, hfa]
    · rw [if_neg hr]
      obtain ⟨a1, rfl⟩ : ∃ a1, a = a1 + 1 := ⟨a - 1, by omega⟩
      rw [show repair (srcAt compile jload repair source_code (a1 + 1))
          (extract_error jload (asciiClean (compile (a1 + 1)
            (srcAt compile jload repair source_code (a1 + 1))))) =
          srcAt compile jload repair source_code (a1 + 1 + 1) from rfl]
      rw [ih (a1 + 1 + 1) _ (by omega) (by omega)
        (fun j hj1 hj2 => h3 j (by omega) (by omega))]
      have : a1 + 1 + 1 + r - 1 = a1 + 1 + (r + 1) - 1 := by omega
      rw [this, show idxFrom (a1 + 1) (r + 1) =
        (a1 + 1) :: idxFrom (a1 + 1 + 1) r from rfl]
      simp [recAt, hfa]

/-- Regardless of the oracles, the loop appends one record per executed
attempt, with consecutive 1-based indices, executing at least one and at
most `r` attempts when it has budget `r ≥ 1`. -/
theorem Autofix.compileGo_hist (compile : Nat → List Char → List Char)
    (jload : List Char → Option Json) (repair : List Char → List Char → List Char) :
    ∀ (r a : Nat) (current : List Char) (hist : List ARec),
      ∃ T, (compileGo compile jload repair r a current hist).2.2 = hist ++ T ∧
        T.length ≤ r ∧ (1 ≤ r → 1 ≤ T.length) ∧
        T.map ARec.attempt = idxFrom a T.length := by
  intro r
  induction r with
  | zero =>
    intro a current hist
    exact ⟨[], by simp [compileGo, idxFrom]⟩
  | succ r ih =>
    intro a current hist
    rw [compileGo_step]
    by_cases hok : pyInL marker (asciiClean (compile a current)) = true
    · rw [if_pos hok]
      exact ⟨[⟨a, current, true, (asciiClean (compile a current)).take 500⟩],
        by simp [idxFrom]⟩
    · rw [if_neg hok]
      by_cases hr : r = 0
      · subst hr
        rw [if_pos rfl]
        exact ⟨[⟨a, current, false, (asciiClean (compile a current)).take 500⟩],
          by simp [idxFrom]⟩
      · rw [if_neg hr]
        rcases ih (a + 1)
          (repair current (extract_error jload (asciiClean (compile a current))))
          (hist ++ [⟨a, current, false, (asciiClean (compile a current)).take 500⟩]) with
          ⟨T, hT, hlen, _, hmap⟩
        refine ⟨⟨a, current, false, (asciiClean (compile a current)).take 500⟩ :: T,
          ?_, by simpa using hlen, fun _ => by simp, ?_⟩
        · rw [hT, List.append_assoc, List.singleton_append]
        · simp only [List.map_cons, hmap]
          rfl

/-- One unfolded step of the `compile_with_retries` loop. -/
theorem ClaudeAgent.retriesGo_step (compile : Nat → List Char → List Char)
    (jload : List Char → Option Json)
    (repair : Nat → List Char → List Char → List Char)
    (r a : Nat) (current : List Char) (hist : List CRec) :
    compileGo compile jload repair (r + 1) a current hist =
      if pyInL marker (compile a current) then
        (true, current, hist ++ [⟨a, true, current, none⟩])
      else if r = 0 then
        (false, current, hist ++
          [⟨a, false, current, some ((extract_error jload (compile a current)).take 200)⟩])
      else
        compileGo compile jload repair r (a + 1)
          (repair a current (extract_error jload (compile a current)))
          (hist ++
            [⟨a, false, current,
              some ((extract_error jload (compile a current)).take 200)⟩]) := by
  rw [compileGo]

/-- `compile_with_retries` analogue of `Autofix.compileGo_succeeds`. -/
theorem ClaudeAgent.retriesGo_succeeds (compile : Nat → List Char → List Char)
    (jload : List Char → Option Json)
    (repair : Nat → List Char → List Char → List Char)
    (source_code : List Char) (k : Nat)
    (hsucc : succAt compile jload repair source_code k = true)
    (hfail : ∀ j, 1 ≤ j → j < k → succAt compile jload repair source_code j = false) :
    ∀ (r a : Nat) (hist : List CRec), 1 ≤ a → a ≤ k → k < a + r →
      compileGo compile jload repair r a
        (srcAt compile jload repair source_code a) hist =
      (true, srcAt compile jload repair source_code k,
        hist ++ (idxFrom a (k + 1 - a)).map (recAt compile jload repair source_code)) := by
  intro r
  induction r with
  | zero => intro a hist h1 h2 h3; omega
  | succ r ih =>
    intro a hist h1 h2 h3
    rw [retriesGo_step, show pyInL marker (compile a
      (srcAt compile jload repair source_code a)) =
      succAt compile jload repair source_code a from rfl]
    rcases Nat.eq_or_lt_of_le h2 with heq | hlt
    · subst heq
      rw [if_pos hsucc]
      have hk1 : a + 1 - a = 1 := by omega
      rw [hk1]
      simp [idxFrom, recAt, hsucc]
    · have hfa : succAt compile jload repair source_code a = false := hfail a h1 hlt
      rw [hfa, if_neg (by simp)]
      have hr : ¬ (r = 0) := by omega
      rw [if_neg hr]
      obtain ⟨a1, rfl⟩ : ∃ a1, a = a1 + 1 := ⟨a - 1, by omega⟩
      rw [show repair (a1 + 1) (srcAt compile jload repair source_code (a1 + 1))
          (extract_error jload (compile (a1 + 1)
            (srcAt compile jload repair source_code (a1 + 1)))) =
          srcAt compile jload repair source_code (a1 + 1 + 1) from rfl]
      rw [ih (a1 + 1 + 1) _ (by omega) hlt (by omega)]
      have hsplit : k + 1 - (a1 + 1) = (k + 1 - (a1 + 1 + 1)) + 1 := by omega
      rw [hsplit, show idxFrom (a1 + 1) ((k + 1 - (a1 + 1 + 1)) + 1) =
        (a1 + 1) :: idxFrom (a1 + 1 + 1) (k + 1 - (a1 + 1 + 1)) from rfl]
      simp [recAt, hfa]

/-- `compile_with_retries` analogue of `Autofix.compileGo_exhausts`. -/
theorem ClaudeAgent.retriesGo_exhausts (compile : Nat → List Char → List Char)
    (jload : List Char → Option Json)
    (repair : Nat → List Char → List Char → List Char)
    (source_code : List Char) :
    ∀ (r a : Nat) (hist : List CRec), 1 ≤ a → 1 ≤ r →
      (∀ j, a ≤ j → j < a + r → succAt compile jload repair source_code j = false) →
      compileGo compile jload repair r a
        (srcAt compile jload repair source_code a) hist =
      (false, srcAt compile jload repair source_code (a + r - 1),
        hist ++ (idxFrom a r).map (recAt compile jload repair source_code)) := by
  intro r
  induction r with
  | zero => intro a hist h1 h2 h3; omega
  | succ r ih =>
    intro a hist h1 h2 h3
    rw [retriesGo_step, show pyInL marker (compile a
      (srcAt compile jload repair source_code a)) =
      succAt compile jload repair source_code a from rfl]
    have hfa : succAt compile jload repair source_code a = false :=
      h3 a (le_refl a) (by omega)
    rw [hfa, if_neg (by simp)]
    by_cases hr : r = 0
    · subst hr
      rw [if_pos rfl]
      simp [idxFrom, recAt, hfa]
    · rw [if_neg hr]
      obtain ⟨a1, rfl⟩ : ∃ a1, a = a1 + 1 := ⟨a - 1, by omega⟩
      rw [show repair (a1 + 1) (srcAt compile jload repair source_code (a1 + 1))
          (extract_error jload (compile (a1 + 1)
            (srcAt compile jload repair source_code (a1 + 1)))) =
          srcAt compile jload repair source_code (a1 + 1 + 1) from rfl]
      rw [ih (a1 + 1 + 1) _ (by omega) (by omega)
        (fun j hj1 hj2 => h3 j (by omega) (by omega))]
      have : a1 + 1 + 1 + r - 1 = a1 + 1 + (r + 1) - 1 := by omega
      rw [this, show idxFrom (a1 + 1) (r + 1) =
        (a1 + 1) :: idxFrom (a1 + 1 + 1) r from rfl]
      simp [recAt, hfa]

/-- `compile_with_retries` analogue of `Autofix.compileGo_hist`. -/
theorem ClaudeAgent.retriesGo_hist (compile : Nat → List Char → List Char)
    (jload : List Char → Option Json)
    (repair : Nat → List Char → List Char → List Char) :
    ∀ (r a : Nat) (current : List Char) (hist : List CRec),
      ∃ T, (compileGo compile jload repair r a current hist).2.2 = hist ++ T ∧
        T.length ≤ r ∧ (1 ≤ r → 1 ≤ T.length) ∧
        T.map CRec.attempt = idxFrom a T.length := by
  intro r
  induction r with
  | zero =>
    intro a current hist
    exact ⟨[], by simp [compileGo, idxFrom]⟩
  | succ r ih =>
    intro a current hist
    rw [retriesGo_step]
    by_cases hok : pyInL marker (compile a current) = true
    · rw [if_pos hok]
      exact ⟨[⟨a, true, current, none⟩], by simp [idxFrom]⟩
    · rw [if_neg hok]
      by_cases hr : r = 0
      · subst hr
        rw [if_pos rfl]
        exact ⟨[⟨a, false, current,
          some ((extract_error jload (compile a current)).take 200)⟩],
          by simp [idxFrom]⟩
      · rw [if_neg hr]
        rcases ih (a + 1)
          (repair a current (extract_error jload (compile a current)))
          (hist ++ [⟨a, false, current,
            some ((extract_error jload (compile a current)).take 200)⟩]) with
          ⟨T, hT, hlen, _, hmap⟩
        refine ⟨⟨a, false, current,
          some ((extract_error jload (compile a current)).take 200)⟩ :: T,
          ?_, by simpa using hlen, fun _ => by simp, ?_⟩
        · rw [hT, List.append_assoc, List.singleton_append]
        · simp only [List.map_cons, hmap]
          rfl

/-!
## The claims
-/

/-- C1: For every retry run (either controller, any compiler behaviour, any
repair strategy), if the submission at attempt `k` succeeds and the earlier
ones failed, the run stops at attempt `k` — the history holds exactly the
records of attempts `1..k`, so no attempt `k+1` happens — reports
`succeeded = true`, and the reported final source is the source submitted
at attempt `k`. -/
theorem claim_C1_success_halts :
    (∀ (compile : Nat → List Char → List Char) (jload : List Char → Option Json)
        (repair : List Char → List Char → List Char)
        (max_attempts : Nat) (source_code : List Char) (k : Nat),
      1 ≤ k → k ≤ max_attempts →
      Autofix.succAt compile jload repair source_code k = true →
      (∀ j, 1 ≤ j → j < k →
        Autofix.succAt compile jload repair source_code j = false) →
      Autofix.compile_and_fix compile jload repair max_attempts source_code =
        (true, Autofix.srcAt compile jload repair source_code k,
          (idxFrom 1 k).map (Autofix.recAt compile jload repair source_code))) ∧
    (∀ (compile : Nat → List Char → List Char) (jload : List Char → Option Json)
        (repair : Nat → List Char → List Char → List Char)
        (max_attempts : Nat) (source_code : List Char) (k : Nat),
      1 ≤ k → k ≤ max_attempts →
      ClaudeAgent.succAt compile jload repair source_code k = true →
      (∀ j, 1 ≤ j → j < k →
        ClaudeAgent.succAt compile jload repair source_code j = false) →
      ClaudeAgent.compile_with_retries compile jload repair max_attempts source_code =
        (true, ClaudeAgent.srcAt compile jload repair source_code k,
          (idxFrom 1 k).map (ClaudeAgent.recAt compile jload repair source_code))) := by
  constructor
  · intro compile jload repair max_attempts source_code k hk1 hk2 hs hf
    exact Autofix.compileGo_succeeds compile jload repair source_code k hs hf
      max_attempts 1 [] (le_refl 1) hk1 (by omega)
  · intro compile jload repair max_attempts source_code k hk1 hk2 hs hf
    exact ClaudeAgent.retriesGo_succeeds compile jload repair source_code k hs hf
      max_attempts 1 [] (le_refl 1) hk1 (by omega)

/-- C1, witnessed at a compiler that succeeds immediately with a
three-attempt budget: both controllers stop after one attempt and return
the original source. -/
theorem claim_C1_witness :
    Autofix.compile_and_fix (fun _ _ => "Compilation successful!".toList)
      (fun _ => none) (fun s _ => s) 3 "x".toList =
      (true, "x".toList,
        [⟨1, "x".toList, true, "Compilation successful!".toList⟩]) ∧
    ClaudeAgent.compile_with_retries (fun _ _ => "✅ Compilation successful!".toList)
      (fun _ => none) (fun _ s _ => s) 3 "x".toList =
      (true, "x".toList, [⟨1, true, "x".toList, none⟩]) := by
  constructor
  · exact claim_C1_success_halts.1 (fun _ _ => "Compilation successful!".toList)
      (fun _ => none) (fun s _ => s) 3 "x".toList 1 (le_refl 1) (by omega) rfl
      (fun j h1 h2 => absurd h2 (Nat.not_lt.mpr h1))
  · exact claim_C1_success_halts.2 (fun _ _ => "✅ Compilation successful!".toList)
      (fun _ => none) (fun _ s _ => s) 3 "x".toList 1 (le_refl 1) (by omega) rfl
      (fun j h1 h2 => absurd h2 (Nat.not_lt.mpr h1))

/-- C2: For every retry run in which all `maxAttempts` submissions fail,
both controllers report `succeeded = false` and return the source
submitted at the last attempt — the repair of the last attempt is never
applied — with exactly one history record per attempt. -/
theorem claim_C2_exhaustion_returns_last :
    (∀ (compile : Nat → List Char → List Char) (jload : List Char → Option Json)
        (repair : List Char → List Char → List Char)
        (max_attempts : Nat) (source_code : List Char),
      (∀ j, 1 ≤ j → j ≤ max_attempts →
        Autofix.succAt compile jload repair source_code j = false) →
      Autofix.compile_and_fix compile jload repair max_attempts source_code =
        (false, Autofix.srcAt compile jload repair source_code max_attempts,
          (idxFrom 1 max_attempts).map
            (Autofix.recAt compile jload repair source_code))) ∧
    (∀ (compile : Nat → List Char → List Char) (jload : List Char → Option Json)
        (repair : Nat → List Char → List Char → List Char)
        (max_attempts : Nat) (source_code : List Char),
      (∀ j, 1 ≤ j → j ≤ max_attempts →
        ClaudeAgent.succAt compile jload repair source_code j = false) →
      ClaudeAgent.compile_with_retries compile jload repair max_attempts source_code =
        (false, ClaudeAgent.srcAt compile jload repair source_code max_attempts,
          (idxFrom 1 max_attempts).map
            (ClaudeAgent.recAt compile jload repair source_code))) := by
  constructor
  · intro compile jload repair max_attempts source_code hf
    cases max_attempts with
    | zero => rfl
    | succ n =>
      have h := Autofix.compileGo_exhausts compile jload repair source_code
        (n + 1) 1 [] (le_refl 1) (by omega)
        (fun j hj1 hj2 => hf j hj1 (by omega))
      have heq : 1 + (n + 1) - 1 = n + 1 := by omega
      rw [heq] at h
      exact h
  · intro compile jload repair max_attempts source_code hf
    cases max_attempts with
    | zero => rfl
    | succ n =>
      have h := ClaudeAgent.retriesGo_exhausts compile jload repair source_code
        (n + 1) 1 [] (le_refl 1) (by omega)
        (fun j hj1 hj2 => hf j hj1 (by omega))
      have heq : 1 + (n + 1) - 1 = n + 1 := by omega
      rw [heq] at h
      exact h

/-- C2, witnessed at a compiler that always fails with a two-attempt budget
and an identity repair: both controllers report failure, return the
(unchanged) last submission, and record two attempts. -/
theorem claim_C2_witness :
    Autofix.compile_and_fix (fun _ _ => "error: no".toList)
      (fun _ => none) (fun s _ => s) 2 "x".toList =
      (false, "x".toList,
        [⟨1, "x".toList, false, "error: no".toList⟩,
         ⟨2, "x".toList, false, "error: no".toList⟩]) ∧
    ClaudeAgent.compile_with_retries (fun _ _ => "error: no".toList)
      (fun _ => none) (fun _ s _ => s) 2 "x".toList =
      (false, "x".toList,
        [⟨1, false, "x".toList, some "error: no".toList⟩,
         ⟨2, false, "x".toList, some "error: no".toList⟩]) := by
  constructor
  · exact (claim_C2_exhaustion_returns_last.1 (fun _ _ => "error: no".toList)
      (fun _ => none) (fun s _ => s) 2 "x".toList
      (fun j h1 h2 => by interval_cases j <;> rfl)).trans (by decide)
  · exact (claim_C2_exhaustion_returns_last.2 (fun _ _ => "error: no".toList)
      (fun _ => none) (fun _ s _ => s) 2 "x".toList
      (fun j h1 h2 => by interval_cases j <;> rfl)).trans (by decide)

/-- C3, counterexample to the claim as stated: with
`--max-attempts=0` (the CLI accepts any integer) the loop body never runs,
so `attemptsMade = len(history) = 0` and `1 ≤ attemptsMade` fails for both
controllers. -/
theorem claim_C3_counterexample :
    (Autofix.compile_and_fix (fun _ _ => []) (fun _ => none) (fun s _ => s) 0
      "x".toList).2.2.length = 0 ∧
    (ClaudeAgent.compile_with_retries (fun _ _ => []) (fun _ => none)
      (fun _ s _ => s) 0 "x".toList).2.2.length = 0 ∧
    ¬ (1 ≤ (Autofix.compile_and_fix (fun _ _ => []) (fun _ => none) (fun s _ => s) 0
      "x".toList).2.2.length) := by
  refine ⟨rfl, rfl, ?_⟩
  intro h
  exact absurd h (by decide)

/-- C3 (amended): provided `1 ≤ maxAttempts`, every retry run of either
controller makes between 1 and `maxAttempts` attempts, appends exactly one
history record per attempt, and the records carry the consecutive 1-based
attempt indices (so `attemptsMade = len(history)`). -/
theorem claim_C3_attempt_bounds :
    (∀ (compile : Nat → List Char → List Char) (jload : List Char → Option Json)
        (repair : List Char → List Char → List Char)
        (max_attempts : Nat) (source_code : List Char), 1 ≤ max_attempts →
      1 ≤ (Autofix.compile_and_fix compile jload repair max_attempts
          source_code).2.2.length ∧
      (Autofix.compile_and_fix compile jload repair max_attempts
          source_code).2.2.length ≤ max_attempts ∧
      (Autofix.compile_and_fix compile jload repair max_attempts
          source_code).2.2.map Autofix.ARec.attempt =
        idxFrom 1 (Autofix.compile_and_fix compile jload repair max_attempts
          source_code).2.2.length) ∧
    (∀ (compile : Nat → List Char → List Char) (jload : List Char → Option Json)
        (repair : Nat → List Char → List Char → List Char)
        (max_attempts : Nat) (source_code : List Char), 1 ≤ max_attempts →
      1 ≤ (ClaudeAgent.compile_with_retries compile jload repair max_attempts
          source_code).2.2.length ∧
      (ClaudeAgent.compile_with_retries compile jload repair max_attempts
          source_code).2.2.length ≤ max_attempts ∧
      (ClaudeAgent.compile_with_retries compile jload repair max_attempts
          source_code).2.2.map ClaudeAgent.CRec.attempt =
        idxFrom 1 (ClaudeAgent.compile_with_retries compile jload repair max_attempts
          source_code).2.2.length) := by
  constructor
  · intro compile jload repair max_attempts source_code hmax
    rcases Autofix.compileGo_hist compile jload repair max_attempts 1 source_code []
      with ⟨T, hT, hlen, hpos, hmap⟩
    have hrun : (Autofix.compile_and_fix compile jload repair max_attempts
        source_code).2.2 = T := by
      rw [Autofix.compile_and_fix, hT]
      simp
    rw [hrun]
    exact ⟨hpos hmax, hlen, hmap⟩
  · intro compile jload repair max_attempts source_code hmax
    rcases ClaudeAgent.retriesGo_hist compile jload repair max_attempts 1 source_code []
      with ⟨T, hT, hlen, hpos, hmap⟩
    have hrun : (ClaudeAgent.compile_with_retries compile jload repair max_attempts
        source_code).2.2 = T := by
      rw [ClaudeAgent.compile_with_retries, hT]
      simp
    rw [hrun]
    exact ⟨hpos hmax, hlen, hmap⟩

/-- C3 (amended), witnessed at an always-failing compiler with a
two-attempt budget, for both controllers. -/
theorem claim_C3_witness :
    (1 ≤ (Autofix.compile_and_fix (fun _ _ => "no".toList) (fun _ => none)
        (fun s _ => s) 2 "x".toList).2.2.length ∧
      (Autofix.compile_and_fix (fun _ _ => "no".toList) (fun _ => none)
        (fun s _ => s) 2 "x".toList).2.2.length ≤ 2 ∧
      (Autofix.compile_and_fix (fun _ _ => "no".toList) (fun _ => none)
        (fun s _ => s) 2 "x".toList).2.2.map Autofix.ARec.attempt =
        idxFrom 1 (Autofix.compile_and_fix (fun _ _ => "no".toList) (fun _ => none)
        (fun s _ => s) 2 "x".toList).2.2.length) ∧
    (1 ≤ (ClaudeAgent.compile_with_retries (fun _ _ => "no".toList) (fun _ => none)
        (fun _ s _ => s) 2 "x".toList).2.2.length ∧
      (ClaudeAgent.compile_with_retries (fun _ _ => "no".toList) (fun _ => none)
        (fun _ s _ => s) 2 "x".toList).2.2.length ≤ 2 ∧
      (ClaudeAgent.compile_with_retries (fun _ _ => "no".toList) (fun _ => none)
        (fun _ s _ => s) 2 "x".toList).2.2.map ClaudeAgent.CRec.attempt =
        idxFrom 1 (ClaudeAgent.compile_with_retries (fun _ _ => "no".toList)
        (fun _ => none) (fun _ s _ => s) 2 "x".toList).2.2.length) :=
  ⟨claim_C3_attempt_bounds.1 (fun _ _ => "no".toList) (fun _ => none)
      (fun s _ => s) 2 "x".toList (by decide),
   claim_C3_attempt_bounds.2 (fun _ _ => "no".toList) (fun _ => none)
      (fun _ s _ => s) 2 "x".toList (by decide)⟩

/-- C4: the Diagnostic Extractor is a total function that absorbs the
structured-payload parse internally — whenever the decode of the text from
the first `{` on fails (`jload` returns `none`, modelling a raised decode
error), the canonical error falls back to the raw response text unchanged —
and any response containing the success marker is reported
`succeeded = true` regardless of what (possibly malformed) payload follows;
the marker also survives the ASCII cleaning the `agent_autofix` loop
applies first. -/
theorem claim_C4_extractor_robust :
    (∀ (jload : List Char → Option Json) (t : List Char),
      (pyInL Autofix.marker t = true → (Autofix.diagnose jload t).1 = true) ∧
      (jload (pySliceFrom t (pyFindChar t '\x7b')) = none →
        (Autofix.diagnose jload t).2 = t)) ∧
    (∀ content : List Char, pyInL Autofix.marker content = true →
      pyInL Autofix.marker (asciiClean content) = true) ∧
    (∀ (jload : List Char → Option Json) (t : List Char),
      (pyInL ClaudeAgent.marker t = true → (ClaudeAgent.diagnose jload t).1 = true) ∧
      (jload (pySliceFrom t (pyFindChar t '\x7b')) = none →
        (ClaudeAgent.diagnose jload t).2 = t)) := by
  refine ⟨fun jload t => ⟨fun h => h, fun hnone => ?_⟩,
    fun content h => pyInL_asciiClean (by decide) h,
    fun jload t => ⟨fun h => h, fun hnone => ?_⟩⟩
  · show Autofix.extract_error jload t = t
    rw [Autofix.extract_error]
    by_cases hg : pyInL "message".toList t = true
    · rw [if_pos hg, hnone]
    · rw [if_neg hg]
  · show ClaudeAgent.extract_error jload t = t
    rw [ClaudeAgent.extract_error]
    by_cases hg : pyInL "message\":".toList t = true
    · rw [if_pos hg, hnone]
    · rw [if_neg hg]

/-- C4, witnessed on responses with a success marker followed by a
malformed payload and on failing responses whose payload cannot be
decoded. -/
theorem claim_C4_witness :
    (Autofix.diagnose (fun _ => none)
      "Compilation successful! \x7bmessage oops".toList).1 = true ∧
    (Autofix.diagnose (fun _ => none) "error: message \x7boops".toList).2 =
      "error: message \x7boops".toList ∧
    pyInL Autofix.marker (asciiClean "✨ Compilation successful! ✨".toList) = true ∧
    (ClaudeAgent.diagnose (fun _ => none)
      "✅ Compilation successful! \x7bmessage\": oops".toList).1 = true ∧
    (ClaudeAgent.diagnose (fun _ => none) "fail message\": \x7boops".toList).2 =
      "fail message\": \x7boops".toList :=
  ⟨(claim_C4_extractor_robust.1 (fun _ => none)
      "Compilation successful! \x7bmessage oops".toList).1 (by decide),
   (claim_C4_extractor_robust.1 (fun _ => none)
      "error: message \x7boops".toList).2 rfl,
   claim_C4_extractor_robust.2.1 "✨ Compilation successful! ✨".toList (by decide),
   (claim_C4_extractor_robust.2.2 (fun _ => none)
      "✅ Compilation successful! \x7bmessage\": oops".toList).1 (by decide),
   (claim_C4_extractor_robust.2.2 (fun _ => none)
      "fail message\": \x7boops".toList).2 rfl⟩

/-- C5, counterexample to the claim as stated: on the no-client fault path
with an empty source, the returned `fixed_code` is the empty string —
`SimplicityFixAgent.apply_rule_based_fixes` does no trailing normalization,
so the fallback `FixResult` can carry an empty `fixedSource`. -/
theorem claim_C5_counterexample :
    ClaudeAgent.fixedCodeOf
      (ClaudeAgent.analyze_and_fix .noClient [] "expected program".toList) =
      some [] := rfl

/-- C5 (amended): on every internal fault (reasoning service unavailable,
or any exception raised during the call/parse/decode), `analyze_and_fix`
still returns a dict whose `fixed_code` is exactly the output of the
internal rule-based fixer on the current source (which may be empty, e.g.
for an empty source), with `confidence ≤ 0.5`; the fault is absorbed and
never escapes as an error. -/
theorem claim_C5_fault_fallback :
    ∀ (source_code error_message : List Char) (o : ClaudeAgent.DelegatedOutcome),
      (o = .noClient ∨ ∃ m, o = .raised m) →
      ClaudeAgent.fixedCodeOf
        (ClaudeAgent.analyze_and_fix o source_code error_message) =
        some (ClaudeAgent.apply_rule_based_fixes source_code error_message) ∧
      ∃ q, ClaudeAgent.confidenceOf
        (ClaudeAgent.analyze_and_fix o source_code error_message) = some q ∧
        q ≤ 1 / 2 := by
  rintro s e o (rfl | ⟨m, rfl⟩)
  · exact ⟨rfl, 1 / 2, rfl, le_refl _⟩
  · exact ⟨rfl, 3 / 10, rfl, by norm_num⟩

/-- C5 (amended), witnessed on the exception path for a source the
rule-based fixer rewrites. -/
theorem claim_C5_witness :
    ClaudeAgent.fixedCodeOf (ClaudeAgent.analyze_and_fix
      (.raised "timeout".toList) "let x = jet::add_32(a, b);".toList "err".toList) =
      some "let (x,) = jet::add_32(a, b);".toList ∧
    ∃ q, ClaudeAgent.confidenceOf (ClaudeAgent.analyze_and_fix
      (.raised "timeout".toList) "let x = jet::add_32(a, b);".toList "err".toList) =
      some q ∧ q ≤ 1 / 2 := by
  have h := claim_C5_fault_fallback "let x = jet::add_32(a, b);".toList "err".toList
    (.raised "timeout".toList) (Or.inr ⟨"timeout".toList, rfl⟩)
  exact ⟨h.1.trans (by decide), h.2⟩

/-- C6, counterexample to the claim as stated: with a per-case processing
step that raises, the batch loop of `main` (which contains no `try`)
aborts with that exception — the failing case is not recorded as failed
and the remaining case is never processed. -/
theorem claim_C6_counterexample :
    run_batch (fun _ => Except.error 42) ["Arithmetic", "Scoping"] =
      Except.error 42 ∧
    ¬ ∃ rs, run_batch (fun _ => (Except.error 42 : Except Nat Bool))
      ["Arithmetic", "Scoping"] = Except.ok rs := by
  refine ⟨rfl, ?_⟩
  rintro ⟨rs, h⟩
  exact Except.noConfusion h

/-- C6 (amended): an unexpected exception raised while processing a single
case is NOT caught at the Batch Runner boundary: as soon as one case
raises, the whole batch aborts with that exception, and the cases after it
are never processed. -/
theorem claim_C6_batch_aborts :
    ∀ (E : Type) (proc : String → Except E Bool) (pre : List String)
      (n : String) (rest : List String) (e : E),
      (∀ m ∈ pre, ∃ b, proc m = Except.ok b) →
      proc n = Except.error e →
      run_batch proc (pre ++ n :: rest) = Except.error e := by
  intro E proc pre
  induction pre with
  | nil =>
    intro n rest e _ hn
    simp [run_batch, hn]
  | cons m pre ih =>
    intro n rest e hok hn
    rcases hok m (List.mem_cons_self ..) with ⟨b, hb⟩
    have htail := ih n rest e (fun m2 hm2 => hok m2 (List.mem_cons_of_mem m hm2)) hn
    simp [run_batch, hb, htail]

/-- C6 (amended), witnessed on a two-good-one-bad batch: the error of the
middle case aborts the run. -/
theorem claim_C6_witness :
    run_batch (fun nm => if nm = "B" then Except.error 5 else Except.ok true)
      (["A"] ++ "B" :: ["C"]) = Except.error 5 :=
  claim_C6_batch_aborts Nat
    (fun nm => if nm = "B" then Except.error 5 else Except.ok true)
    ["A"] "B" ["C"] 5
    (fun m hm => ⟨true, by rcases List.mem_singleton.mp hm with rfl; rfl⟩) rfl

/-- C7, counterexample to the claim as stated: there is NO input with the
rule-1 trigger on which the single pass also removes the wrapper it just
added — for every such input the output still contains the wrapper header
`fn main() -> () {`. -/
theorem claim_C7_counterexample :
    ¬ ∃ (source_code error_message : List Char),
      pyInL "expected program".toList error_message = true ∧
      pyInL hdrL (Autofix.apply_rule_based_fixes source_code error_message) =
        false := by
  rintro ⟨s, e, htrig, habs⟩
  rcases fixesCore_keeps_hdr s e htrig with ⟨T, hT⟩
  rw [hT, pyInL_of_starts (listStarts_append_self hdrL T)] at habs
  exact Bool.noConfusion habs

/-- C7 (amended): rule 3 can never undo rule 1 within the same pass.  The
unwrap regex demands only whitespace between `main()` and `{`, which the
generated header's `-> ()` return annotation never satisfies, so whenever
the rule-1 trigger is present the returned source still starts with (and
hence contains) the freshly added wrapper header. -/
theorem claim_C7_wrapper_retained :
    ∀ (source_code error_message : List Char),
      pyInL "expected program".toList error_message = true →
      listStarts hdrL
        (Autofix.apply_rule_based_fixes source_code error_message) = true ∧
      pyInL hdrL
        (Autofix.apply_rule_based_fixes source_code error_message) = true := by
  intro s e h
  rcases fixesCore_keeps_hdr s e h with ⟨T, hT⟩
  rw [hT]
  exact ⟨listStarts_append_self hdrL T,
    pyInL_of_starts (listStarts_append_self hdrL T)⟩

/-- C7 (amended), witnessed on the spec's own oscillation candidate: a
source already wrapped by the user, with both triggers textually present. -/
theorem claim_C7_witness :
    listStarts hdrL (Autofix.apply_rule_based_fixes
      "fn main() \x7b\nx\n\x7d".toList "expected program".toList) = true ∧
    pyInL hdrL (Autofix.apply_rule_based_fixes
      "fn main() \x7b\nx\n\x7d".toList "expected program".toList) = true :=
  claim_C7_wrapper_retained "fn main() \x7b\nx\n\x7d".toList
    "expected program".toList (by decide)

/-- C8: on source `1 + 1` with error `expected program`, the Pattern Fix
Engine returns the source wrapped in the zero-argument, no-return-value
declaration `fn main() -> () { ... }`, whose body contains the original
source and ends in the unit expression `()` (the dedent of rule 2 removes
its four-space indent, and the output is normalized with one trailing
newline). -/
theorem claim_C8_scenario_wrap :
    Autofix.apply_rule_based_fixes "1 + 1".toList "expected program".toList =
      "fn main() -> () \x7b\n1 + 1\n()\n\x7d\n".toList ∧
    ∃ body, Autofix.apply_rule_based_fixes "1 + 1".toList
        "expected program".toList = hdrL ++ body ++ "\x7d\n".toList ∧
      pyInL "1 + 1".toList body = true ∧
      ∃ pre, body = pre ++ "()\n".toList := by
  refine ⟨by decide, "\n1 + 1\n()\n".toList, by decide, by decide,
    "\n1 + 1\n".toList, by decide⟩

/-- C9, counterexample to the claim as stated: the two rule-based fixers
disagree already on Scenario A's input — the standalone Pattern Fix Engine
wraps it, the agent's method returns it unchanged. -/
theorem claim_C9_counterexample :
    Autofix.apply_rule_based_fixes "1 + 1".toList "expected program".toList ≠
      ClaudeAgent.apply_rule_based_fixes "1 + 1".toList
        "expected program".toList := by
  decide

/-- C9 (amended): the rule-based fixer the Delegated Fix Engine falls back
to is NOT the same function as the standalone Pattern Fix Engine: there are
inputs on which the two return different outputs (their rule sets and
normalization differ). -/
theorem claim_C9_engines_differ :
    ∃ (source_code error_message : List Char),
      Autofix.apply_rule_based_fixes source_code error_message ≠
        ClaudeAgent.apply_rule_based_fixes source_code error_message :=
  ⟨"1 + 1".toList, "expected program".toList, by decide⟩

/-- C10: the Pattern Fix Engine's output is always some text stripped of
leading and trailing whitespace followed by exactly one newline; when no
rule fires it is exactly `source.strip() + '\n'`, and therefore differs
from any input that is not already in that normalized form. -/
theorem claim_C10_output_normalized :
    ∀ (source_code error_message : List Char),
      (∃ t, Autofix.apply_rule_based_fixes source_code error_message =
        pyStripL t ++ ['\n']) ∧
      (pyInL "expected program".toList error_message = false →
       pyInL "expected EOI or item".toList error_message = false →
       (pyInL "fn main()".toList source_code ||
         pyInL "fn main (".toList source_code) = false →
       (pyInL "let (".toList source_code &&
         pyInL ",)".toList source_code) = false →
       Autofix.apply_rule_based_fixes source_code error_message =
         pyStripL source_code ++ ['\n'] ∧
       (source_code ≠ pyStripL source_code ++ ['\n'] →
        Autofix.apply_rule_based_fixes source_code error_message ≠
          source_code)) := by
  intro s e
  refine ⟨⟨Autofix.fixesCore s e, rfl⟩, fun h1 h2 h3 h4 => ?_⟩
  have hfix : Autofix.fixesCore s e = s := by
    simp only [Autofix.fixesCore, h1, h2, h3, h4, Bool.false_eq_true, if_false]
  have hout : Autofix.apply_rule_based_fixes s e = pyStripL s ++ ['\n'] := by
    rw [Autofix.apply_rule_based_fixes, hfix]
  exact ⟨hout, fun hne hc => hne (hc.symm.trans hout ▸ rfl)⟩

/-- C10, witnessed on an input with leading/trailing whitespace and no
rule trigger: the output is the stripped text plus one newline, not the
input itself. -/
theorem claim_C10_witness :
    Autofix.apply_rule_based_fixes "  1 + 1 ".toList "mystery".toList =
      pyStripL "  1 + 1 ".toList ++ ['\n'] ∧
    Autofix.apply_rule_based_fixes "  1 + 1 ".toList "mystery".toList ≠
      "  1 + 1 ".toList := by
  have h := (claim_C10_output_normalized "  1 + 1 ".toList "mystery".toList).2
    (by decide) (by decide) (by decide) (by decide)
  exact ⟨h.1, h.2 (by decide)⟩

example : Autofix.apply_rule_based_fixes "fn main() \x7b\nx\n\x7d".toList
    "expected program".toList = "fn main() -> () \x7b\n\nx\n\x7d\n()\n".toList := by
  decide
